import Mathlib

/-!
Verification development for the scikit-network sample: clustering metrics
(`sknetwork/clustering/metrics.py`), the hierarchy engines (Paris,
LouvainIteration, LouvainHierarchy) and the force-directed embedding engine
(ForceAtlas2).  The metrics module is embedded directly from its source;
the hierarchy and embedding engines are present in the repository only
through their test files, so they are modelled from the specification.

Conventions: numpy/scipy float matrices are modelled as functions
`ℕ → ℕ → ℚ` together with explicit dimensions; fallible Python calls
(raising `TypeError`, `ValueError`, `AttributeError`) are modelled as
`Except`-valued functions.
-/

/-! ### Label relabeling (models `np.unique(..., return_inverse=True)`) -/

/-- Rank of the label `c i` among the distinct label values occurring in
`c 0, …, c (m-1)`: the number of distinct values strictly below `c i`.
This is exactly the inverse array returned by
`np.unique(labels, return_inverse=True)`, which maps each entry to the
index of its value in the sorted array of distinct values. -/
def rankIn {α : Type} [LinearOrder α] [DecidableEq α] (m : ℕ) (c : ℕ → α) (i : ℕ) : ℕ :=
  (((Finset.range m).image c).filter (fun v => v < c i)).card

/-- Number of distinct label values in `c 0, …, c (m-1)` (models `len(set(labels))`). -/
def countDistinct {α : Type} [DecidableEq α] (m : ℕ) (c : ℕ → α) : ℕ :=
  ((Finset.range m).image c).card

/-! ### bimodularity (metrics.py lines 13-62), pure part

The dynamic `.data` attribute access on the first argument is modelled
separately below (`bimodularityDyn`); this is the numeric computation on a
biadjacency matrix of shape `n × p`. -/

/-- Shallow embedding of `bimodularity(biadjacency, sample_labels, feature_labels,
resolution)` from `sknetwork/clustering/metrics.py` (lines 44-62), for a
biadjacency matrix given as a function with explicit shape `n × p`.
The two label arrays are independently relabeled to contiguous 0-based
ranges by `np.unique(..., return_inverse=True)` (lines 50-51, modelled by
`rankIn`); `n_clusters` is the larger of the two distinct-label counts
(line 52); `fitv` is the total relative weight of entries whose relabeled
sample and feature clusters coincide (line 59) and `div` the product of
cluster weight vectors (line 60). -/
def bimodularity (n p : ℕ) (B : ℕ → ℕ → ℚ) (sample_labels feature_labels : ℕ → ℤ)
    (resolution : ℚ) : ℚ :=
  let total_weight : ℚ := ∑ i in Finset.range n, ∑ j in Finset.range p, B i j
  let sample_weights : ℕ → ℚ := fun i => (∑ j in Finset.range p, B i j) / total_weight
  let features_weights : ℕ → ℚ := fun j => (∑ i in Finset.range n, B i j) / total_weight
  let sl : ℕ → ℕ := rankIn n sample_labels
  let fl : ℕ → ℕ := rankIn p feature_labels
  let n_clusters : ℕ := max (countDistinct n sample_labels) (countDistinct p feature_labels)
  let fitv : ℚ := (∑ i in Finset.range n, ∑ j in Finset.range p,
      if sl i = fl j then B i j else 0) / total_weight
  let div : ℚ := ∑ C in Finset.range n_clusters,
      (∑ i in (Finset.range n).filter (fun i => sl i = C), sample_weights i) *
      (∑ j in (Finset.range p).filter (fun j => fl j = C), features_weights j)
  fitv - resolution * div

/-! ### Dynamically-typed inputs of `modularity` -/

/-- Dynamic type of the `adjacency` argument of `modularity`
(`Union[sparse.csr_matrix, np.ndarray]` plus anything else at runtime).
`csr` is a `scipy.sparse.csr_matrix`, `spOther` any other scipy sparse
matrix, `dense` a numpy `ndarray`, and `invalid` any unrecognized object. -/
inductive AdjInput where
  | csr : ℕ → ℕ → (ℕ → ℕ → ℚ) → AdjInput
  | spOther : ℕ → ℕ → (ℕ → ℕ → ℚ) → AdjInput
  | dense : ℕ → ℕ → (ℕ → ℕ → ℚ) → AdjInput
  | invalid : AdjInput

/-- Dynamic type of the `partition` argument of `modularity`
(`Union[dict, np.ndarray]` plus anything else at runtime).  A dict with all
keys `0..n-1` present and an integer array are both modelled as label
functions; `invalid` is any other object. -/
inductive PartInput where
  | dict : (ℕ → ℕ) → PartInput
  | array : (ℕ → ℕ) → PartInput
  | invalid : PartInput

/-- Python exceptions raised by the metrics module. -/
inductive MetricError where
  | typeErrorAdjacency
  | valueErrorSquare
  | typeErrorPartition
  | attributeErrorDense
deriving DecidableEq

/-- The body of `bimodularity` applied to a dynamically-typed first argument.
Lines 44-48 of metrics.py access `biadjacency.shape`, `biadjacency.data`,
`biadjacency.dot` and `biadjacency.T`: every scipy sparse matrix supports
all of them, but a numpy `ndarray`'s `.data` attribute is a memoryview with
no `.sum()` method, so the call `biadjacency.data.sum()` (line 46) raises
`AttributeError` on a dense array before anything is returned. -/
def bimodularityDyn (adj : AdjInput) (sample_labels feature_labels : ℕ → ℕ)
    (resolution : ℚ) : Except MetricError ℚ :=
  match adj with
  | AdjInput.csr n p B =>
      Except.ok (bimodularity n p B (fun i => (sample_labels i : ℤ))
        (fun j => (feature_labels j : ℤ)) resolution)
  | AdjInput.spOther n p B =>
      Except.ok (bimodularity n p B (fun i => (sample_labels i : ℤ))
        (fun j => (feature_labels j : ℤ)) resolution)
  | AdjInput.dense _ _ _ => Except.error MetricError.attributeErrorDense
  | AdjInput.invalid => Except.error MetricError.attributeErrorDense

/-- Part of `modularity` from the square-shape check onward
(metrics.py lines 99-122), parameterized by the original dynamically-typed
adjacency object `orig` (which line 113 passes unconverted to
`bimodularity`) and by the converted matrix `A` of shape `n × m`.
The undirected branch (lines 115-122) computes
`fit = Σ_{ij} normA i j · [labels j = labels i]` (the membership-matrix
product) and `diversity = Σ_C (Σ_{labels i = C} probs i)²` with the
membership matrix shape inferred from the largest label (line 118). -/
def modularityChecked (orig : AdjInput) (n m : ℕ) (A : ℕ → ℕ → ℚ) (part : PartInput)
    (resolution : ℚ) (directed : Bool) : Except MetricError ℚ :=
  if n ≠ m then Except.error MetricError.valueErrorSquare
  else
    let w : ℚ := ∑ i in Finset.range n, ∑ j in Finset.range m, A i j
    let normA : ℕ → ℕ → ℚ := fun i j => A i j / w
    let probs : ℕ → ℚ := fun i => ∑ j in Finset.range m, normA i j
    match part with
    | PartInput.invalid => Except.error MetricError.typeErrorPartition
    | PartInput.dict f =>
        if directed then bimodularityDyn orig f f resolution
        else Except.ok
          ((∑ i in Finset.range n, ∑ j in Finset.range n,
              if f j = f i then normA i j else 0) -
            resolution * ∑ C in Finset.range ((Finset.range n).sup f + 1),
              (∑ i in (Finset.range n).filter (fun i => f i = C), probs i) ^ 2)
    | PartInput.array f =>
        if directed then bimodularityDyn orig f f resolution
        else Except.ok
          ((∑ i in Finset.range n, ∑ j in Finset.range n,
              if f j = f i then normA i j else 0) -
            resolution * ∑ C in Finset.range ((Finset.range n).sup f + 1),
              (∑ i in (Finset.range n).filter (fun i => f i = C), probs i) ^ 2)

/-- Shallow embedding of `modularity(adjacency, partition, resolution, directed)`
from `sknetwork/clustering/metrics.py` (lines 65-122).  The dynamic type
dispatch of lines 91-97 keeps a csr matrix, converts any other sparse
matrix or ndarray to csr, and raises `TypeError` otherwise; note that the
directed branch (line 113) passes the original object `adjacency`, not the
converted `adj_matrix`, to `bimodularity`. -/
def modularity (adjacency : AdjInput) (partition : PartInput) (resolution : ℚ)
    (directed : Bool) : Except MetricError ℚ :=
  match adjacency with
  | AdjInput.invalid => Except.error MetricError.typeErrorAdjacency
  | AdjInput.csr n m A => modularityChecked adjacency n m A partition resolution directed
  | AdjInput.spOther n m A => modularityChecked adjacency n m A partition resolution directed
  | AdjInput.dense n m A => modularityChecked adjacency n m A partition resolution directed

/-! ### Dendrogram records and helpers shared by the hierarchy engines -/

/-- Recursive sum `f 0 + … + f (n-1)` over `ℚ`, used by the spec-modelled
engines (kept in recursive form so that concrete runs evaluate by `simp`). -/
def sumR : ℕ → (ℕ → ℚ) → ℚ
  | 0, _ => 0
  | n + 1, f => sumR n f + f n

/-- Filter with a decidable propositional predicate, in recursive form so
that concrete runs evaluate by `simp` with `norm_num` discharging the
rational-arithmetic conditions. -/
def filterP {α : Type} (p : α → Prop) [DecidablePred p] : List α → List α
  | [] => []
  | x :: xs => if p x then x :: filterP p xs else filterP p xs

/-- One dendrogram merge record `(node_a, node_b, distance, size)`; the
"4 columns" of the numpy output are the four components.  Distances live in
`WithTop ℚ` so that disconnected clusters can merge at infinite distance. -/
abbrev PRecord := ℕ × ℕ × WithTop ℚ × ℕ

/-- Distance component of a dendrogram record. -/
def distOf (r : PRecord) : WithTop ℚ := r.2.2.1

/-- The non-decreasing-distance invariant of a dendrogram. -/
def MonotoneDendrogram (l : List PRecord) : Prop :=
  List.Pairwise (fun r s => distOf r ≤ distOf s) l

/-! ### Paris (spec §4.1): nearest-neighbor-chain agglomeration -/

/-- Modelled from the spec: one active cluster of the Paris nearest-neighbor
chain algorithm (§4.1), missing from src/ (only its tests are present).
A cluster carries its dendrogram node id, its weight (degree-based or
uniform), its size, and its normalized affinity mass to the other active
clusters as an association list. -/
structure PCluster where
  id : ℕ
  weight : ℚ
  size : ℕ
  nbr : List (ℕ × ℚ)

/-- Default cluster used by defensive list accesses. -/
def defaultPC : PCluster := ⟨0, 0, 0, []⟩

/-- Cluster at an index in the active list (`defaultPC` out of range). -/
def getPC : List PCluster → ℕ → PCluster
  | [], _ => defaultPC
  | c :: _, 0 => c
  | _ :: cs, i + 1 => getPC cs i

/-- First value bound to key `k` in an association list, `0` when absent
(a missing sparse entry has affinity mass `0`). -/
def lookupP (k : ℕ) : List (ℕ × ℚ) → ℚ
  | [] => 0
  | kv :: rest => if k = kv.1 then kv.2 else lookupP k rest

/-- Modelled from the spec: the Paris merge distance (§4.1), "inverse of
affinity ratio relative to product of cluster weights"; clusters with no
affinity are at infinite distance (disconnected components merge last). -/
def clusterDist (a b : PCluster) : WithTop ℚ :=
  let pq := lookupP b.id a.nbr
  if pq ≤ 0 then ⊤ else ((a.weight * b.weight / pq : ℚ) : WithTop ℚ)

/-- Index of a minimizer of `f` on a list, preferring earlier entries on
ties; `none` on the empty list. -/
def argminL (f : ℕ → WithTop ℚ) : List ℕ → Option ℕ
  | [] => none
  | x :: xs =>
    match argminL f xs with
    | none => some x
    | some y => if f x ≤ f y then some x else some y

/-- Modelled from the spec: index of the nearest neighbor of the cluster at
index `i` among the active clusters (§4.1). -/
def nearestIdx (cs : List PCluster) (i : ℕ) : ℕ :=
  (argminL (fun j => clusterDist (getPC cs i) (getPC cs j))
    (filterP (fun j => j ≠ i) (List.range cs.length))).getD 0

/-- Modelled from the spec: the chain-following procedure of the
nearest-neighbor chain algorithm (§4.1).  Starting from a cluster, follow
nearest neighbors until the current cluster's nearest is no closer than the
chain predecessor (a pair of mutually nearest clusters), then return that
reciprocal pair.  Chain distances strictly decrease, so the walk
terminates; the fuel is a bound on its length. -/
def chainWalk (cs : List PCluster) : ℕ → Option ℕ → ℕ → ℕ × ℕ
  | 0, _, cur => (cur, nearestIdx cs cur)
  | fuel + 1, prev, cur =>
    let nxt := nearestIdx cs cur
    match prev with
    | some p =>
      if clusterDist (getPC cs cur) (getPC cs p) ≤
          clusterDist (getPC cs cur) (getPC cs nxt) then (p, cur)
      else chainWalk cs fuel (some cur) nxt
    | none => chainWalk cs fuel (some cur) nxt

/-- Defensive validation of a merge pair: two distinct in-range indices
(the chain always returns such a pair; the fallback keeps the step total). -/
def validPair (pr : ℕ × ℕ) (len : ℕ) : ℕ × ℕ :=
  if pr.1 < len ∧ pr.2 < len ∧ pr.1 ≠ pr.2 then pr else (0, 1)

/-- Modelled from the spec: redirect the affinity mass a surviving cluster
held toward the two merged clusters onto the new cluster id (§4.1,
"cluster weights are summed on merge" and the aggregation of connections). -/
def updateNbr (ida idb nid : ℕ) (c : PCluster) : PCluster :=
  let pa := lookupP ida c.nbr
  let pb := lookupP idb c.nbr
  let rest := filterP (fun kv => kv.1 ≠ ida ∧ kv.1 ≠ idb) c.nbr
  ⟨c.id, c.weight, c.size, if pa + pb = 0 then rest else rest ++ [(nid, pa + pb)]⟩

/-- Duplicate removal keeping the last occurrence of each key. -/
def dedupKeys : List ℕ → List ℕ
  | [] => []
  | k :: ks => if k ∈ ks then dedupKeys ks else k :: dedupKeys ks

/-- Modelled from the spec: the cluster created by merging `a` and `b`:
weights and sizes are summed, affinities to the other clusters added. -/
def mergedCluster (a b : PCluster) (nid : ℕ) : PCluster :=
  let keys := dedupKeys (filterP (fun k => k ≠ a.id ∧ k ≠ b.id)
      ((a.nbr.map Prod.fst) ++ (b.nbr.map Prod.fst)))
  ⟨nid, a.weight + b.weight, a.size + b.size,
    keys.map (fun k => (k, lookupP k a.nbr + lookupP k b.nbr))⟩

/-- Modelled from the spec: replace the clusters at indices `i` and `j` by
their merge, updating the affinities of the surviving clusters. -/
def mergeAt (cs : List PCluster) (i j nid : ℕ) : List PCluster :=
  let a := getPC cs i
  let b := getPC cs j
  ((cs.eraseIdx (max i j)).eraseIdx (min i j)).map (updateNbr a.id b.id nid) ++
    [mergedCluster a b nid]

/-- Modelled from the spec: the Paris merge loop (§4.1): while at least two
clusters are active, find a reciprocal nearest pair by chain following,
record the merge `(id_a, id_b, distance, size)` and replace the pair by the
merged cluster.  The fuel (instantiated with the node count) bounds the
number of merges; each iteration removes exactly one cluster. -/
def parisGoF : ℕ → List PCluster → ℕ → List PRecord
  | 0, _, _ => []
  | fuel + 1, cs, nid =>
    if cs.length ≤ 1 then []
    else
      let pr := validPair (chainWalk cs (cs.length * cs.length) none 0) cs.length
      let a := getPC cs pr.1
      let b := getPC cs pr.2
      (a.id, b.id, clusterDist a b, a.size + b.size) ::
        parisGoF fuel (mergeAt cs pr.1 pr.2 nid) (nid + 1)

/-- Modelled from the spec: the initial Paris clusters (§4.1): the graph is
symmetrized, each node becomes a singleton cluster whose weight is its
relative degree (or `1/n` with the uniform weighting scheme) and whose
affinities are the normalized co-occurrence weights. -/
def parisInit (n : ℕ) (A : ℕ → ℕ → ℚ) (uniform : Bool) : List PCluster :=
  let S : ℕ → ℕ → ℚ := fun i j => A i j + A j i
  let w : ℚ := sumR n (fun i => sumR n (fun j => S i j))
  (List.range n).map (fun i =>
    ⟨i, if uniform then 1 / (n : ℚ) else sumR n (fun j => S i j) / w, 1,
      (filterP (fun j => j ≠ i ∧ S i j ≠ 0) (List.range n)).map
        (fun j => (j, S i j / w))⟩)

/-- Stable insertion of a record into a distance-sorted dendrogram: the new
record goes before the first strictly larger distance, so equal distances
keep their original relative order. -/
def insertRec (r : PRecord) : List PRecord → List PRecord
  | [] => [r]
  | s :: ss => if distOf r < distOf s then r :: s :: ss else s :: insertRec r ss

/-- Modelled from the spec: the `reorder` post-processing of Paris (§4.1),
a stable re-sort of the merge records by distance that repairs the
non-monotonicity artifact of the raw nearest-neighbor-chain order. -/
def sortRecs : List PRecord → List PRecord
  | [] => []
  | r :: rs => insertRec r (sortRecs rs)

/-- Modelled from the spec: `Paris(weights, reorder).fit(graph)` (§4.1),
missing from src/ (only `hierarchy/tests/test_algos.py` is present):
run the nearest-neighbor-chain agglomeration from the singleton clusters
and, when `reorder` is set (the default), stably re-sort the merges by
distance. -/
def parisFit (n : ℕ) (A : ℕ → ℕ → ℚ) (uniform reorder : Bool) : List PRecord :=
  if reorder then sortRecs (parisGoF n (parisInit n A uniform) n)
  else parisGoF n (parisInit n A uniform) n

/-! ### Louvain-based hierarchy engines (spec §4.2)

The Community-Detection Oracle is an external collaborator (spec §2, §6):
the engines are parameterized by it.  Per §6 the caller relabels whatever
the oracle returns to a contiguous 0-based range before consumption
(modelled by `rankIn`). -/

/-- Modelled from the spec: the Community-Detection Oracle interface (§6),
`partition(graph, resolution) -> cluster_label_per_node`, deterministic:
a function of the node count, the weight matrix and the resolution. -/
def Oracle : Type := ℕ → (ℕ → ℕ → ℚ) → ℚ → (ℕ → ℕ)

/-- A supernode tracked during aggregation: dendrogram node id and size. -/
abbrev DNode := ℕ × ℕ

/-- Supernode at an index in a list (`(0, 0)` out of range). -/
def getDN : List DNode → ℕ → DNode
  | [], _ => (0, 0)
  | x :: _, 0 => x
  | _ :: xs, i + 1 => getDN xs i

/-- Entry at an index in a list of naturals (`0` out of range). -/
def getN : List ℕ → ℕ → ℕ
  | [], _ => 0
  | x :: _, 0 => x
  | _ :: xs, i + 1 => getN xs i

/-- Modelled from the spec: sequential fold-merge of the supernodes of one
community into a single cluster at a fixed synthetic distance, recording
one dendrogram row per absorbed member (standard union-find-over-time
numbering: each merge creates the next fresh id).  Returns the resulting
supernode, the records, and the next fresh id. -/
def foldMergeGo (lvl : WithTop ℚ) : List DNode → DNode → ℕ → DNode × List PRecord × ℕ
  | [], cur, nid => (cur, [], nid)
  | b :: rest, cur, nid =>
    let out := foldMergeGo lvl rest (nid, cur.2 + b.2) (nid + 1)
    (out.1, (cur.1, b.1, lvl, cur.2 + b.2) :: out.2.1, out.2.2)

/-- Indices of the current supernodes assigned to community `c`. -/
def membersList (m : ℕ) (lab : ℕ → ℕ) (c : ℕ) : List ℕ :=
  filterP (fun i => lab i = c) (List.range m)

/-- Modelled from the spec: contraction of the discovered communities into
super-nodes, summing edge weights between communities (§4.2). -/
def aggregateB (m : ℕ) (B : ℕ → ℕ → ℚ) (lab : ℕ → ℕ) : ℕ → ℕ → ℚ :=
  fun c c2 => sumR m (fun i => sumR m (fun j => if lab i = c ∧ lab j = c2 then B i j else 0))

/-- Modelled from the spec: one aggregation level of `LouvainIteration`
(§4.2): every community is contracted to one supernode, its members merged
at the level's synthetic distance; empty communities (impossible for
relabeled output) are skipped.  Returns the new supernodes, the records
of the level, and the next fresh id. -/
def levelGo (m : ℕ) (nodes : List DNode) (lab : ℕ → ℕ) (lvl : WithTop ℚ) :
    List ℕ → ℕ → List DNode × List PRecord × ℕ
  | [], nid => ([], [], nid)
  | c :: cr, nid =>
    match membersList m lab c with
    | [] => levelGo m nodes lab lvl cr nid
    | i0 :: ir =>
      let fm := foldMergeGo lvl (ir.map (getDN nodes)) (getDN nodes i0) nid
      let rest := levelGo m nodes lab lvl cr fm.2.2
      (fm.1 :: rest.1, fm.2.1 ++ rest.2.1, rest.2.2)

/-- Modelled from the spec: the aggregation loop of `LouvainIteration`
(§4.2): run the oracle once per depth level, contract communities, record
the contraction as merges at an increasing synthetic distance level; stop
at the depth bound or at a fixed point (no aggregation / single node).
Returns the records, the remaining supernodes, the next fresh id and the
final distance level. -/
def louvainIterGo (L : Oracle) (res : ℚ) :
    ℕ → ℕ → (ℕ → ℕ → ℚ) → List DNode → ℕ → ℕ → List PRecord × List DNode × ℕ × ℕ
  | 0, _, _, nodes, nid, lvl => ([], nodes, nid, lvl)
  | fuel + 1, m, B, nodes, nid, lvl =>
    let raw := L m B res
    let lab := rankIn m raw
    let k := countDistinct m raw
    if m ≤ 1 ∨ k = m then ([], nodes, nid, lvl)
    else
      let lv := levelGo m nodes lab (((lvl : ℚ) : WithTop ℚ)) (List.range k) nid
      let rest := louvainIterGo L res fuel lv.1.length (aggregateB m B lab) lv.1 lv.2.2 (lvl + 1)
      (lv.2.1 ++ rest.1, rest.2.1, rest.2.2.1, rest.2.2.2)

/-- Final step of `LouvainIteration`: when at least two supernodes remain
after the aggregation loop (depth bound or fixed point), merge them into a
single root at the final distance level. -/
def finishMerge (out : List PRecord × List DNode × ℕ × ℕ) : List PRecord :=
  match out.2.1 with
  | [] => out.1
  | [_] => out.1
  | x :: y :: rest =>
    out.1 ++ (foldMergeGo (((out.2.2.2 : ℚ) : WithTop ℚ)) (y :: rest) x out.2.2.1).2.1

/-- Modelled from the spec: `LouvainIteration(resolution, depth).fit(graph)`
(§4.2), missing from src/ (only `hierarchy/tests/test_algos.py` is
present): run bounded aggregation levels and finally merge the remaining
top-level supernodes into a single root at the final distance level, so
the dendrogram always has `n - 1` rows. -/
def louvainIteration (L : Oracle) (res : ℚ) (depth : ℕ) (n : ℕ) (A : ℕ → ℕ → ℚ) :
    List PRecord :=
  finishMerge (louvainIterGo L res depth n A ((List.range n).map (fun i => (i, 1))) n 1)

/-- Modelled from the spec: base case of `LouvainHierarchy` — a community
that is not subdivided further has all its supernodes merged directly, at
synthetic distance 1 (greater than the distance 0 of leaves). -/
def hierFlat (nodes : List DNode) (nid : ℕ) : List PRecord × DNode × ℕ :=
  match nodes with
  | [] => ([], (0, 0), nid)
  | x :: rest =>
    let fm := foldMergeGo (((1 : ℚ) : WithTop ℚ)) rest x nid
    (fm.2.1, fm.1, fm.2.2)

/-- Largest finite distance appearing in a record list (0 if none). -/
def maxFinD : List PRecord → ℚ
  | [] => 0
  | r :: rs => max (WithTop.untop' 0 (distOf r)) (maxFinD rs)

/-- Modelled from the spec: recursive subdivision step of `LouvainHierarchy`
(§4.2): invoke the recursive procedure (`rec`) independently within each
community (restricting the graph and supernode list to its members),
concatenating the sub-dendrograms; returns the records, the community
roots, and the next fresh id. -/
def hierComs (rec : (ℕ → ℕ → ℚ) → List DNode → ℕ → List PRecord × DNode × ℕ)
    (m : ℕ) (B : ℕ → ℕ → ℚ) (nodes : List DNode) (lab : ℕ → ℕ) :
    List ℕ → ℕ → List PRecord × List DNode × ℕ
  | [], nid => ([], [], nid)
  | c :: cr, nid =>
    match membersList m lab c with
    | [] => hierComs rec m B nodes lab cr nid
    | i0 :: ir =>
      let mems := i0 :: ir
      let sub := rec (fun u v => B (getN mems u) (getN mems v)) (mems.map (getDN nodes)) nid
      let rest := hierComs rec m B nodes lab cr sub.2.2
      (sub.1 ++ rest.1, sub.2.1 :: rest.2.1, rest.2.2)

/-- Modelled from the spec: the recursion of `LouvainHierarchy` (§4.2): run
the oracle, recursively build a sub-dendrogram inside each community, then
join the community roots into a single tree at a distance greater than any
internal distance.  A single community, singleton communities (no
aggregation), a single node, or an exhausted depth bound terminate the
recursion with a flat merge. -/
def louvainHierGo (L : Oracle) (res : ℚ) :
    ℕ → (ℕ → ℕ → ℚ) → List DNode → ℕ → List PRecord × DNode × ℕ
  | 0, _, nodes, nid => hierFlat nodes nid
  | fuel + 1, B, nodes, nid =>
    let m := nodes.length
    let raw := L m B res
    let lab := rankIn m raw
    let k := countDistinct m raw
    if m ≤ 1 ∨ k ≤ 1 ∨ k = m then hierFlat nodes nid
    else
      let cr := hierComs (fun B2 nodes2 nid2 => louvainHierGo L res fuel B2 nodes2 nid2)
        m B nodes lab (List.range k) nid
      match cr.2.1 with
      | [] => ([], (0, 0), cr.2.2)
      | x :: roots =>
        let fm := foldMergeGo (((maxFinD cr.1 + 1 : ℚ) : WithTop ℚ)) roots x cr.2.2
        (cr.1 ++ fm.2.1, fm.1, fm.2.2)

/-- Modelled from the spec: `LouvainHierarchy(resolution, depth).fit(graph)`
(§4.2), missing from src/ (only `hierarchy/tests/test_algos.py` is
present). -/
def louvainHierarchy (L : Oracle) (res : ℚ) (depth : ℕ) (n : ℕ) (A : ℕ → ℕ → ℚ) :
    List PRecord :=
  (louvainHierGo L res depth A ((List.range n).map (fun i => (i, 1))) n).1

/-! ### Force-directed embedding engine, ForceAtlas2 (spec §4.3)

Missing from src/ (only `embedding/tests/test_force_atlas.py` is present);
modelled from the spec.  Floating-point numerics are modelled over `ℚ`,
with `ratSqrt`/`ratLog` as rational stand-ins for `sqrt`/`log`. -/

/-- Newton iteration for the square-root stand-in. -/
def newtonSqrt : ℕ → ℚ → ℚ → ℚ
  | 0, _, x => x
  | k + 1, q, x => newtonSqrt k q (if x = 0 then 0 else (x + q / x) / 2)

/-- Rational stand-in for `sqrt` (0 on non-positive input). -/
def ratSqrt (q : ℚ) : ℚ := if q ≤ 0 then 0 else newtonSqrt 4 q 1

/-- Rational stand-in for `log` (0 on non-positive input). -/
def ratLog (q : ℚ) : ℚ :=
  if q ≤ 0 then 0 else 2 * ((q - 1) / (q + 1) + ((q - 1) / (q + 1)) ^ 3 / 3)

/-- Modelled from the spec: the constructor options of the force-directed
embedding engine (§4.3, §6: configuration surface). -/
structure FAOptions where
  n_components : ℕ
  n_iter : ℕ
  lin_log : Bool
  no_hubs : Bool
  no_overlapping : Bool
  barnes_hut : Bool
  strong_gravity : Bool
  seed : ℕ

/-- Entry at an index in a rational list (`0` out of range). -/
def getQ : List ℚ → ℕ → ℚ
  | [], _ => 0
  | x :: _, 0 => x
  | _ :: xs, i + 1 => getQ xs i

/-- Row at an index in a position table (`[]` out of range). -/
def getRow : List (List ℚ) → ℕ → List ℚ
  | [], _ => []
  | r :: _, 0 => r
  | _ :: rs, i + 1 => getRow rs i

/-- Coordinate `t` of node `i` in a position table. -/
def coordAt (pos : List (List ℚ)) (i t : ℕ) : ℚ := getQ (getRow pos i) t

/-- Squared Euclidean distance between the positions of nodes `i` and `j`. -/
def dist2 (d : ℕ) (pos : List (List ℚ)) (i j : ℕ) : ℚ :=
  sumR d (fun t => (coordAt pos i t - coordAt pos j t) ^ 2)

/-- Weighted out-degree of node `i`. -/
def degQ (n : ℕ) (A : ℕ → ℕ → ℚ) (i : ℕ) : ℚ := sumR n (fun j => A i j)

/-- Modelled from the spec: component `t` of the repulsive force on node `i`
(§4.3 step 1): a pairwise degree-weighted push along the separation vector,
boosted at short range under `no_overlapping`; under `barnes_hut` distant
nodes are replaced by a single aggregate mass at their centroid. -/
def faRepulse (o : FAOptions) (n : ℕ) (A : ℕ → ℕ → ℚ) (pos : List (List ℚ))
    (i t : ℕ) : ℚ :=
  if o.barnes_hut then
    let c : ℕ → ℚ := fun t2 =>
      sumR n (fun j => if j = i then 0 else coordAt pos j t2) / ((n : ℚ) - 1)
    let dd := sumR o.n_components (fun t2 => (coordAt pos i t2 - c t2) ^ 2)
    let mass := sumR n (fun j => if j = i then 0 else degQ n A j + 1)
    if dd = 0 then 0 else (degQ n A i + 1) * mass * (coordAt pos i t - c t) / dd
  else
    sumR n (fun j =>
      if j = i then 0
      else
        let dd := dist2 o.n_components pos i j
        if dd = 0 then 0
        else
          (if o.no_overlapping ∧ dd < 1 then 4 else 1) * (degQ n A i + 1) *
            (degQ n A j + 1) * (coordAt pos i t - coordAt pos j t) / dd)

/-- Modelled from the spec: component `t` of the attractive force on node
`i` (§4.3 step 2): along every incident edge, scaled by the edge weight,
log-transformed under `lin_log`, damped for hubs under `no_hubs`. -/
def faAttract (o : FAOptions) (n : ℕ) (A : ℕ → ℕ → ℚ) (pos : List (List ℚ))
    (i t : ℕ) : ℚ :=
  sumR n (fun j =>
    let w := A i j + A j i
    if w = 0 then 0
    else
      let dist := ratSqrt (dist2 o.n_components pos i j)
      (if o.lin_log then (if dist = 0 then 1 else ratLog (1 + dist) / dist) else 1) *
        (if o.no_hubs then 1 / (degQ n A i + 1) else 1) * w *
        (coordAt pos j t - coordAt pos i t))

/-- Modelled from the spec: component `t` of the gravity force on node `i`
(§4.3 step 3): pull toward the origin, distance-scaled by default and
distance-independent under `strong_gravity`. -/
def faGravity (o : FAOptions) (n : ℕ) (A : ℕ → ℕ → ℚ) (pos : List (List ℚ))
    (i t : ℕ) : ℚ :=
  if o.strong_gravity then
    let nrm := ratSqrt (sumR o.n_components (fun t2 => coordAt pos i t2 ^ 2))
    if nrm = 0 then 0 else -((degQ n A i + 1) * coordAt pos i t / nrm)
  else -((degQ n A i + 1) * coordAt pos i t)

/-- Total force on node `i`, component `t` (§4.3 step 4). -/
def faForce (o : FAOptions) (n : ℕ) (A : ℕ → ℕ → ℚ) (pos : List (List ℚ))
    (i t : ℕ) : ℚ :=
  faRepulse o n A pos i t + faAttract o n A pos i t + faGravity o n A pos i t

/-- Modelled from the spec: one simulation iteration (§4.3 steps 1-5):
compute all forces, damp each node by its swing (the change of its force
vector since the previous iteration) and displace it.  The state is the
position table paired with the previous iteration's force table. -/
def faStep (o : FAOptions) (n : ℕ) (A : ℕ → ℕ → ℚ)
    (st : List (List ℚ) × List (List ℚ)) : List (List ℚ) × List (List ℚ) :=
  let pos := st.1
  let swing : ℕ → ℚ :=
    fun i => sumR o.n_components (fun t => (faForce o n A pos i t - coordAt st.2 i t) ^ 2)
  let factor : ℕ → ℚ := fun i => 1 / (1 + ratSqrt (swing i))
  ((List.range n).map (fun i => (List.range o.n_components).map
      (fun t => coordAt pos i t + factor i * faForce o n A pos i t)),
   (List.range n).map (fun i => (List.range o.n_components).map
      (fun t => faForce o n A pos i t)))

/-- Fixed-count iteration of the simulation (§4.3: termination is purely by
iteration count). -/
def faIterate (o : FAOptions) (n : ℕ) (A : ℕ → ℕ → ℚ) :
    ℕ → List (List ℚ) × List (List ℚ) → List (List ℚ)
  | 0, st => st.1
  | k + 1, st => faIterate o n A k (faStep o n A st)

/-- Linear-congruential pseudo-random coordinate in `[0, 1)`, the seeded
default initialization. -/
def lcgQ (x : ℕ) : ℚ := (((1103515245 * x + 12345) % 2147483648 : ℕ) : ℚ) / 2147483648

/-- Modelled from the spec: seeded random default `pos_init` of shape
`(n, d)` (§4.3). -/
def defaultInit (seed n d : ℕ) : List (List ℚ) :=
  (List.range n).map (fun i => (List.range d).map (fun t => lcgQ (seed + i * d + t)))

/-- All-zero force table of shape `(n, d)` (initial previous-force state). -/
def zeroPos (n d : ℕ) : List (List ℚ) :=
  (List.range n).map (fun _ => (List.range d).map (fun _ => 0))

/-- Configuration and input errors of the embedding engine (spec §7:
ConfigurationConflictError and InputShapeError, both `ValueError`s in the
tests). -/
inductive FAErr where
  | configurationConflict
  | inputShape
deriving DecidableEq

/-- Modelled from the spec: `ForceAtlas2.fit(graph, pos_init?, n_iter)`
(§4.3): a given `pos_init` must have shape `(n, n_components)` (raises on
mismatch); without one, the seeded default initialization is used; then
the simulation runs for exactly `n_iter` iterations. -/
def faFit (o : FAOptions) (n : ℕ) (A : ℕ → ℕ → ℚ)
    (posInit : Option (List (List ℚ))) (nIter : ℕ) : Except FAErr (List (List ℚ)) :=
  match posInit with
  | some p =>
    if p.length = n ∧ ∀ r ∈ p, r.length = o.n_components then
      Except.ok (faIterate o n A nIter (p, zeroPos n o.n_components))
    else Except.error FAErr.inputShape
  | none =>
    Except.ok (faIterate o n A nIter
      (defaultInit o.seed n o.n_components, zeroPos n o.n_components))

/-- An embedding engine instance: its constructor options and its stored
result attribute (`embedding_`), overwritten by each `fit` call. -/
structure FAEngine where
  opts : FAOptions
  embedding_ : Except FAErr (List (List ℚ))

/-- Modelled from the spec: the `ForceAtlas2(...)` constructor (§4.3):
`n_components` must be 2 when `barnes_hut` is enabled, otherwise a
configuration error is raised at construction time. -/
def forceAtlas2Mk (o : FAOptions) : Except FAErr FAEngine :=
  if o.barnes_hut ∧ o.n_components ≠ 2 then Except.error FAErr.configurationConflict
  else Except.ok ⟨o, Except.ok []⟩

/-- Modelled from the spec: `engine.fit(graph, pos_init?, n_iter)`: the
stored result is recomputed from the arguments alone (the engine carries
no other state between calls). -/
def FAEngine.fit (e : FAEngine) (n : ℕ) (A : ℕ → ℕ → ℚ)
    (posInit : Option (List (List ℚ))) (nIter : ℕ) : FAEngine :=
  ⟨e.opts, faFit e.opts n A posInit nIter⟩

/-- Modelled from the spec: `engine.fit_transform(graph)`: fit with the
default initialization and the configured iteration count, returning the
position table. -/
def FAEngine.fit_transform (e : FAEngine) (n : ℕ) (A : ℕ → ℕ → ℚ) :
    Except FAErr (List (List ℚ)) :=
  (e.fit n A none e.opts.n_iter).embedding_

/-- Shape predicate for a position table: `n` rows of length `d` (the numpy
shape `(n, d)`). -/
def ShapeOK (p : List (List ℚ)) (n d : ℕ) : Prop :=
  p.length = n ∧ ∀ r ∈ p, r.length = d

/-! ### Hierarchy engine instances with their stored result attribute -/

/-- A Paris engine instance: constructor options and the stored
`dendrogram_` attribute overwritten by each `fit`. -/
structure ParisEngine where
  uniform : Bool
  reorder : Bool
  dendrogram_ : List PRecord

/-- Modelled from the spec: `Paris(...).fit(graph)`: recomputes the stored
dendrogram from the input graph and the constructor options alone. -/
def ParisEngine.fit (e : ParisEngine) (n : ℕ) (A : ℕ → ℕ → ℚ) : ParisEngine :=
  ⟨e.uniform, e.reorder, parisFit n A e.uniform e.reorder⟩

/-- A LouvainIteration engine instance (the deterministic seeded oracle is
part of the instance). -/
structure LouvainIterEngine where
  oracle : Oracle
  resolution : ℚ
  depth : ℕ
  dendrogram_ : List PRecord

/-- Modelled from the spec: `LouvainIteration(...).fit(graph)`. -/
def LouvainIterEngine.fit (e : LouvainIterEngine) (n : ℕ) (A : ℕ → ℕ → ℚ) :
    LouvainIterEngine :=
  ⟨e.oracle, e.resolution, e.depth, louvainIteration e.oracle e.resolution e.depth n A⟩

/-- A LouvainHierarchy engine instance. -/
structure LouvainHierEngine where
  oracle : Oracle
  resolution : ℚ
  depth : ℕ
  dendrogram_ : List PRecord

/-- Modelled from the spec: `LouvainHierarchy(...).fit(graph)`. -/
def LouvainHierEngine.fit (e : LouvainHierEngine) (n : ℕ) (A : ℕ → ℕ → ℚ) :
    LouvainHierEngine :=
  ⟨e.oracle, e.resolution, e.depth, louvainHierarchy e.oracle e.resolution e.depth n A⟩

/-! ### Bipartite inputs (spec §4.1): the full dendrogram -/

/-- Modelled from the spec: the augmented node space of a bipartite input
(§4.1): the `n` sample and `p` feature nodes are merged into one set of
`n + p` nodes whose symmetric adjacency places the biadjacency weights
between the two sides. -/
def augmentBip (n p : ℕ) (B : ℕ → ℕ → ℚ) : ℕ → ℕ → ℚ := fun i j =>
  if i < n ∧ n ≤ j ∧ j < n + p then B i (j - n)
  else if j < n ∧ n ≤ i ∧ i < n + p then B j (i - n)
  else 0

/-- Modelled from the spec: the full combined dendrogram (`dendrogram_full_`)
exposed by Paris on a bipartite input (§4.1). -/
def parisFitFull (n p : ℕ) (B : ℕ → ℕ → ℚ) (uniform reorder : Bool) : List PRecord :=
  parisFit (n + p) (augmentBip n p B) uniform reorder

/-- Modelled from the spec: the full combined dendrogram exposed by
LouvainIteration on a bipartite input. -/
def louvainIterationFull (L : Oracle) (res : ℚ) (depth n p : ℕ) (B : ℕ → ℕ → ℚ) :
    List PRecord :=
  louvainIteration L res depth (n + p) (augmentBip n p B)

/-- Modelled from the spec: the full combined dendrogram exposed by
LouvainHierarchy on a bipartite input. -/
def louvainHierarchyFull (L : Oracle) (res : ℚ) (depth n p : ℕ) (B : ℕ → ℕ → ℚ) :
    List PRecord :=
  louvainHierarchy L res depth (n + p) (augmentBip n p B)

/-! ### Concrete inputs used by counterexamples and witnesses -/

/-- A 5-node weighted graph (a star at node 0 plus the edge 1-2) on which
the raw Paris merge order is not monotone. -/
def cexA : ℕ → ℕ → ℚ := fun i j =>
  if i = 0 ∧ j = 1 then 1 else if i = 0 ∧ j = 2 then 1 else if i = 0 ∧ j = 3 then 1
  else if i = 0 ∧ j = 4 then 2 else if i = 1 ∧ j = 2 then 1 else 0

/-- A 5-node graph made of a 3-clique (0, 1, 2) and a 2-clique (3, 4),
used with `cexOracle`. -/
def cexB : ℕ → ℕ → ℚ := fun i j =>
  if i < 3 ∧ j < 3 ∧ i ≠ j then 1
  else if 3 ≤ i ∧ i < 5 ∧ 3 ≤ j ∧ j < 5 ∧ i ≠ j then 1 else 0

/-- A deterministic community-detection oracle conforming to the interface
of spec §6 (a dense label per node, relabeled by the caller): on the
5-node graph it finds the communities (0, 1, 2) and (3, 4); on the 3-node
subgraph it splits (0, 1) from (2); on anything else it returns a single
community.  This is the subdivision pattern LouvainHierarchy's recursion
produces on nested community structure: one community subdivides one level
deeper than the other. -/
def cexOracle : Oracle := fun m _ _ =>
  if m = 5 then (fun i => if i ≤ 2 then 0 else 1)
  else if m = 3 then (fun i => if i ≤ 1 then 0 else 1)
  else (fun _ => 0)

/-! ## Theorems -/

/-! ### Paris: dendrogram shape and reordering -/

theorem mergeAt_length (cs : List PCluster) (i j nid : ℕ) (hij : i ≠ j)
    (hi : i < cs.length) (hj : j < cs.length) :
    (mergeAt cs i j nid).length = cs.length - 1 := by
  unfold mergeAt
  have hmax : max i j < cs.length := max_lt hi hj
  have hmin : min i j < cs.length - 1 := by omega
  have h1 : (cs.eraseIdx (max i j)).length = cs.length - 1 := by
    rw [List.length_eraseIdx]
    simp [hmax]
  have h2 : ((cs.eraseIdx (max i j)).eraseIdx (min i j)).length = cs.length - 2 := by
    rw [List.length_eraseIdx]
    rw [h1]
    simp only [hmin, if_pos]
    omega
  simp only [List.length_append, List.length_map, h2, List.length_singleton]
  omega

theorem validPair_spec (pr : ℕ × ℕ) (len : ℕ) (h : 2 ≤ len) :
    (validPair pr len).1 < len ∧ (validPair pr len).2 < len ∧
      (validPair pr len).1 ≠ (validPair pr len).2 := by
  by_cases hc : pr.1 < len ∧ pr.2 < len ∧ pr.1 ≠ pr.2
  · simp only [validPair, if_pos hc]
    exact hc
  · simp [validPair, hc]
    omega

theorem parisGoF_length :
    ∀ (fuel : ℕ) (cs : List PCluster) (nid : ℕ), cs.length ≤ fuel + 1 →
      (parisGoF fuel cs nid).length = cs.length - 1 := by
  intro fuel
  induction fuel with
  | zero =>
    intro cs nid h
    simp only [parisGoF, List.length_nil]
    omega
  | succ f ih =>
    intro cs nid h
    by_cases hl : cs.length ≤ 1
    · simp only [parisGoF, if_pos hl, List.length_nil]
      omega
    · have h2 : 2 ≤ cs.length := by omega
      obtain ⟨hv1, hv2, hv3⟩ :=
        validPair_spec (chainWalk cs (cs.length * cs.length) none 0) cs.length h2
      simp only [parisGoF, if_neg hl, List.length_cons]
      rw [ih _ _ (by rw [mergeAt_length _ _ _ _ hv3 hv1 hv2]; omega)]
      rw [mergeAt_length _ _ _ _ hv3 hv1 hv2]
      omega

theorem parisInit_length (n : ℕ) (A : ℕ → ℕ → ℚ) (uniform : Bool) :
    (parisInit n A uniform).length = n := by
  simp [parisInit]

theorem insertRec_length (r : PRecord) :
    ∀ l : List PRecord, (insertRec r l).length = l.length + 1 := by
  intro l
  induction l with
  | nil => simp [insertRec]
  | cons s ss ih => by_cases h : distOf r < distOf s <;> simp [insertRec, h, ih]

theorem sortRecs_length : ∀ l : List PRecord, (sortRecs l).length = l.length := by
  intro l
  induction l with
  | nil => simp [sortRecs]
  | cons r rs ih => simp [sortRecs, insertRec_length, ih]

theorem mem_insertRec {x r : PRecord} :
    ∀ {l : List PRecord}, x ∈ insertRec r l → x = r ∨ x ∈ l := by
  intro l
  induction l with
  | nil => simp [insertRec]
  | cons s ss ih =>
    intro h
    by_cases hc : distOf r < distOf s
    · simp only [insertRec, if_pos hc, List.mem_cons] at h
      simp only [List.mem_cons]
      tauto
    · simp only [insertRec, if_neg hc, List.mem_cons] at h
      simp only [List.mem_cons]
      rcases h with h | h
      · tauto
      · rcases ih h with h2 | h2 <;> tauto

theorem insertRec_pairwise {r : PRecord} :
    ∀ {l : List PRecord}, MonotoneDendrogram l → MonotoneDendrogram (insertRec r l) := by
  intro l
  induction l with
  | nil => intro _; simp [insertRec, MonotoneDendrogram]
  | cons s ss ih =>
    intro h
    simp only [MonotoneDendrogram, List.pairwise_cons] at h
    obtain ⟨hs, hss⟩ := h
    by_cases hc : distOf r < distOf s
    · simp only [insertRec, if_pos hc, MonotoneDendrogram, List.pairwise_cons]
      refine ⟨?_, ?_, ?_⟩
      · intro x hx
        rcases List.mem_cons.mp hx with rfl | hx2
        · exact le_of_lt hc
        · exact le_trans (le_of_lt hc) (hs x hx2)
      · exact hs
      · exact hss
    · simp only [insertRec, if_neg hc, MonotoneDendrogram, List.pairwise_cons]
      constructor
      · intro x hx
        rcases mem_insertRec hx with rfl | hx2
        · exact le_of_not_lt hc
        · exact hs x hx2
      · exact ih hss

theorem sortRecs_monotone : ∀ l : List PRecord, MonotoneDendrogram (sortRecs l) := by
  intro l
  induction l with
  | nil => simp [sortRecs, MonotoneDendrogram]
  | cons r rs ih =>
    simp only [sortRecs]
    exact insertRec_pairwise ih

theorem parisFit_length (n : ℕ) (A : ℕ → ℕ → ℚ) (uniform reorder : Bool) :
    (parisFit n A uniform reorder).length = n - 1 := by
  have hgo : (parisGoF n (parisInit n A uniform) n).length = n - 1 := by
    rw [parisGoF_length n _ _ (by rw [parisInit_length]; omega), parisInit_length]
  unfold parisFit
  by_cases hr : reorder = true <;> simp [hr, sortRecs_length, hgo]

theorem parisFit_reorder_monotone (n : ℕ) (A : ℕ → ℕ → ℚ) (uniform : Bool) :
    MonotoneDendrogram (parisFit n A uniform true) := by
  unfold parisFit
  rw [if_pos rfl]
  exact sortRecs_monotone _

/-! ### Louvain engines: dendrogram shape -/

theorem foldMergeGo_length (lvl : WithTop ℚ) :
    ∀ (ns : List DNode) (cur : DNode) (nid : ℕ),
      ((foldMergeGo lvl ns cur nid).2.1).length = ns.length := by
  intro ns
  induction ns with
  | nil => intro cur nid; simp [foldMergeGo]
  | cons b rest ih => intro cur nid; simp [foldMergeGo, ih]

theorem filterP_append {α : Type} (p : α → Prop) [DecidablePred p] :
    ∀ l1 l2 : List α, filterP p (l1 ++ l2) = filterP p l1 ++ filterP p l2 := by
  intro l1 l2
  induction l1 with
  | nil => simp [filterP]
  | cons x xs ih => by_cases h : p x <;> simp [filterP, h, ih]

theorem membersList_sum (m k : ℕ) (lab : ℕ → ℕ) (hb : ∀ i < m, lab i < k) :
    ∑ c in Finset.range k, (membersList m lab c).length = m := by
  induction m with
  | zero => simp [membersList, filterP]
  | succ m ih =>
    have hb2 : ∀ i < m, lab i < k := fun i hi => hb i (by omega)
    have hm : lab m < k := hb m (by omega)
    have hstep : ∀ c, (membersList (m + 1) lab c).length
        = (membersList m lab c).length + (if lab m = c then 1 else 0) := by
      intro c
      simp only [membersList, List.range_succ, filterP_append]
      by_cases h : lab m = c <;> simp [filterP, h]
    simp only [hstep]
    rw [Finset.sum_add_distrib, ih hb2, Finset.sum_ite_eq (Finset.range k) (lab m) (fun _ => 1)]
    simp [Finset.mem_range.mpr hm]

theorem rankIn_lt {α : Type} [LinearOrder α] [DecidableEq α] (m : ℕ) (c : ℕ → α) (i : ℕ)
    (hi : i < m) : rankIn m c i < countDistinct m c := by
  unfold rankIn countDistinct
  have hmem : c i ∈ (Finset.range m).image c :=
    Finset.mem_image.mpr ⟨i, Finset.mem_range.mpr hi, rfl⟩
  apply Finset.card_lt_card
  rw [Finset.ssubset_iff_of_subset (Finset.filter_subset _ _)]
  refine ⟨c i, hmem, ?_⟩
  simp

theorem listSum_range (k : ℕ) (f : ℕ → ℕ) :
    ((List.range k).map f).sum = ∑ c in Finset.range k, f c := by
  induction k with
  | zero => simp
  | succ k ih =>
    rw [List.range_succ, List.map_append, List.sum_append, Finset.sum_range_succ, ih]
    simp

theorem levelGo_count (m : ℕ) (nodes : List DNode) (lab : ℕ → ℕ) (lvl : WithTop ℚ) :
    ∀ (coms : List ℕ) (nid : ℕ),
      ((levelGo m nodes lab lvl coms nid).1).length +
        ((levelGo m nodes lab lvl coms nid).2.1).length =
      (coms.map (fun c => (membersList m lab c).length)).sum := by
  intro coms
  induction coms with
  | nil => intro nid; simp [levelGo]
  | cons c cr ih =>
    intro nid
    simp only [levelGo]
    cases hm : membersList m lab c with
    | nil => simp [ih, List.map_cons, hm]
    | cons i0 ir =>
      have hrest := ih (foldMergeGo lvl (List.map (getDN nodes) ir) (getDN nodes i0) nid).2.2
      simp only [List.length_cons, List.length_append, foldMergeGo_length, List.length_map,
        List.map_cons, List.sum_cons, hm]
      omega

theorem levelGo_pos (m : ℕ) (nodes : List DNode) (lab : ℕ → ℕ) (lvl : WithTop ℚ) :
    ∀ (coms : List ℕ) (nid : ℕ),
      1 ≤ (coms.map (fun c => (membersList m lab c).length)).sum →
      1 ≤ ((levelGo m nodes lab lvl coms nid).1).length := by
  intro coms
  induction coms with
  | nil => intro nid h; simp at h
  | cons c cr ih =>
    intro nid h
    simp only [levelGo]
    cases hm : membersList m lab c with
    | nil =>
      apply ih
      simp only [List.map_cons, List.sum_cons, hm] at h
      simpa using h
    | cons i0 ir => simp

theorem louvainIterGo_count (L : Oracle) (res : ℚ) :
    ∀ (fuel m : ℕ) (B : ℕ → ℕ → ℚ) (nodes : List DNode) (nid lvl : ℕ),
      m = nodes.length →
      ((louvainIterGo L res fuel m B nodes nid lvl).1).length +
        ((louvainIterGo L res fuel m B nodes nid lvl).2.1).length = nodes.length := by
  intro fuel
  induction fuel with
  | zero => intro m B nodes nid lvl _; simp [louvainIterGo]
  | succ f ih =>
    intro m B nodes nid lvl hm
    simp only [louvainIterGo]
    by_cases hstop : m ≤ 1 ∨ countDistinct m (L m B res) = m
    · simp [if_pos hstop]
    · simp only [if_neg hstop, List.length_append]
      have hb : ∀ i < m, rankIn m (L m B res) i < countDistinct m (L m B res) :=
        fun i hi => rankIn_lt m _ i hi
      have hsum : ((List.range (countDistinct m (L m B res))).map
          (fun c => (membersList m (rankIn m (L m B res)) c).length)).sum = m := by
        rw [listSum_range]
        exact membersList_sum m _ _ hb
      have hlevel := levelGo_count m nodes (rankIn m (L m B res)) (((lvl : ℚ) : WithTop ℚ))
        (List.range (countDistinct m (L m B res))) nid
      have hrest := ih _ (aggregateB m B (rankIn m (L m B res)))
        (levelGo m nodes (rankIn m (L m B res)) (((lvl : ℚ) : WithTop ℚ))
          (List.range (countDistinct m (L m B res))) nid).1
        (levelGo m nodes (rankIn m (L m B res)) (((lvl : ℚ) : WithTop ℚ))
          (List.range (countDistinct m (L m B res))) nid).2.2
        (lvl + 1) rfl
      omega

theorem louvainIterGo_pos (L : Oracle) (res : ℚ) :
    ∀ (fuel m : ℕ) (B : ℕ → ℕ → ℚ) (nodes : List DNode) (nid lvl : ℕ),
      m = nodes.length → 1 ≤ nodes.length →
      1 ≤ ((louvainIterGo L res fuel m B nodes nid lvl).2.1).length := by
  intro fuel
  induction fuel with
  | zero => intro m B nodes nid lvl _ h; simpa [louvainIterGo] using h
  | succ f ih =>
    intro m B nodes nid lvl hm h
    simp only [louvainIterGo]
    by_cases hstop : m ≤ 1 ∨ countDistinct m (L m B res) = m
    · simpa [if_pos hstop] using h
    · simp only [if_neg hstop]
      have hb : ∀ i < m, rankIn m (L m B res) i < countDistinct m (L m B res) :=
        fun i hi => rankIn_lt m _ i hi
      have hsum : ((List.range (countDistinct m (L m B res))).map
          (fun c => (membersList m (rankIn m (L m B res)) c).length)).sum = m := by
        rw [listSum_range]
        exact membersList_sum m _ _ hb
      apply ih _ _ _ _ _ rfl
      apply levelGo_pos
      omega

theorem finishMerge_length (out : List PRecord × List DNode × ℕ × ℕ) :
    (finishMerge out).length = out.1.length + (out.2.1.length - 1) := by
  unfold finishMerge
  cases hout : out.2.1 with
  | nil => simp
  | cons x tl =>
    cases tl with
    | nil => simp
    | cons y rest =>
      simp only [List.length_append, foldMergeGo_length, List.length_cons]
      omega

theorem louvainIteration_length (L : Oracle) (res : ℚ) (depth n : ℕ) (A : ℕ → ℕ → ℚ) :
    (louvainIteration L res depth n A).length = n - 1 := by
  unfold louvainIteration
  have hinit : ((List.range n).map (fun i => ((i, 1) : DNode))).length = n := by simp
  have hcount := louvainIterGo_count L res depth n A
    ((List.range n).map (fun i => ((i, 1) : DNode))) n 1 hinit.symm
  rw [hinit] at hcount
  rw [finishMerge_length]
  rcases Nat.eq_zero_or_pos n with hn | hn
  · omega
  · have hpos := louvainIterGo_pos L res depth n A
      ((List.range n).map (fun i => ((i, 1) : DNode))) n 1 hinit.symm (by omega)
    omega

/-! ### LouvainIteration: monotone synthetic distances -/

theorem foldMergeGo_dist (lvl : WithTop ℚ) :
    ∀ (ns : List DNode) (cur : DNode) (nid : ℕ) (r : PRecord),
      r ∈ (foldMergeGo lvl ns cur nid).2.1 → distOf r = lvl := by
  intro ns
  induction ns with
  | nil => intro cur nid r h; simp [foldMergeGo] at h
  | cons b rest ih =>
    intro cur nid r h
    simp only [foldMergeGo, List.mem_cons] at h
    rcases h with rfl | h
    · rfl
    · exact ih _ _ _ h

theorem monotone_of_const (lvl : WithTop ℚ) :
    ∀ l : List PRecord, (∀ r ∈ l, distOf r = lvl) → MonotoneDendrogram l := by
  intro l
  induction l with
  | nil => intro _; simp [MonotoneDendrogram]
  | cons r rs ih =>
    intro h
    simp only [MonotoneDendrogram, List.pairwise_cons]
    constructor
    · intro s hs
      rw [h r (by simp), h s (by simp [hs])]
    · exact ih (fun s hs => h s (by simp [hs]))

theorem levelGo_dist (m : ℕ) (nodes : List DNode) (lab : ℕ → ℕ) (lvl : WithTop ℚ) :
    ∀ (coms : List ℕ) (nid : ℕ) (r : PRecord),
      r ∈ (levelGo m nodes lab lvl coms nid).2.1 → distOf r = lvl := by
  intro coms
  induction coms with
  | nil => intro nid r h; simp [levelGo] at h
  | cons c cr ih =>
    intro nid r h
    simp only [levelGo] at h
    cases hm : membersList m lab c with
    | nil =>
      rw [hm] at h
      exact ih _ _ h
    | cons i0 ir =>
      rw [hm] at h
      simp only [List.mem_append] at h
      rcases h with h | h
      · exact foldMergeGo_dist _ _ _ _ _ h
      · exact ih _ _ h

theorem louvainIterGo_mono (L : Oracle) (res : ℚ) :
    ∀ (fuel m : ℕ) (B : ℕ → ℕ → ℚ) (nodes : List DNode) (nid lvl : ℕ),
      lvl ≤ (louvainIterGo L res fuel m B nodes nid lvl).2.2.2 ∧
      (∀ r ∈ (louvainIterGo L res fuel m B nodes nid lvl).1,
        ∃ t : ℕ, distOf r = ((t : ℚ) : WithTop ℚ) ∧ lvl ≤ t ∧
          t < (louvainIterGo L res fuel m B nodes nid lvl).2.2.2) ∧
      MonotoneDendrogram (louvainIterGo L res fuel m B nodes nid lvl).1 := by
  intro fuel
  induction fuel with
  | zero =>
    intro m B nodes nid lvl
    simp [louvainIterGo, MonotoneDendrogram]
  | succ f ih =>
    intro m B nodes nid lvl
    simp only [louvainIterGo]
    by_cases hstop : m ≤ 1 ∨ countDistinct m (L m B res) = m
    · simp [if_pos hstop, MonotoneDendrogram]
    · simp only [if_neg hstop]
      obtain ⟨ih1, ih2, ih3⟩ := ih
        (levelGo m nodes (rankIn m (L m B res)) (((lvl : ℚ) : WithTop ℚ))
          (List.range (countDistinct m (L m B res))) nid).1.length
        (aggregateB m B (rankIn m (L m B res)))
        (levelGo m nodes (rankIn m (L m B res)) (((lvl : ℚ) : WithTop ℚ))
          (List.range (countDistinct m (L m B res))) nid).1
        (levelGo m nodes (rankIn m (L m B res)) (((lvl : ℚ) : WithTop ℚ))
          (List.range (countDistinct m (L m B res))) nid).2.2
        (lvl + 1)
      refine ⟨by omega, ?_, ?_⟩
      · intro r hr
        rcases List.mem_append.mp hr with h | h
        · exact ⟨lvl, levelGo_dist _ _ _ _ _ _ _ h, le_refl _, by omega⟩
        · obtain ⟨t, ht, h1, h2⟩ := ih2 r h
          exact ⟨t, ht, by omega, h2⟩
      · simp only [MonotoneDendrogram, List.pairwise_append]
        refine ⟨monotone_of_const _ _ (fun r hr => levelGo_dist _ _ _ _ _ _ _ hr), ih3, ?_⟩
        intro a ha b hb
        obtain ⟨t, ht, h1, h2⟩ := ih2 b hb
        rw [levelGo_dist _ _ _ _ _ _ _ ha, ht, WithTop.coe_le_coe]
        exact_mod_cast (by omega : lvl ≤ t)

theorem louvainIteration_monotone (L : Oracle) (res : ℚ) (depth n : ℕ) (A : ℕ → ℕ → ℚ) :
    MonotoneDendrogram (louvainIteration L res depth n A) := by
  unfold louvainIteration
  obtain ⟨h1, h2, h3⟩ := louvainIterGo_mono L res depth n A
    ((List.range n).map (fun i => (i, 1))) n 1
  unfold finishMerge
  cases hout : (louvainIterGo L res depth n A
      ((List.range n).map (fun i => (i, 1))) n 1).2.1 with
  | nil => exact h3
  | cons x tl =>
    cases tl with
    | nil => exact h3
    | cons y rest =>
      simp only [MonotoneDendrogram, List.pairwise_append]
      refine ⟨h3, monotone_of_const _ _ (fun r hr => foldMergeGo_dist _ _ _ _ _ hr), ?_⟩
      intro a ha b hb
      obtain ⟨t, ht, hla, hlt⟩ := h2 a ha
      rw [ht, foldMergeGo_dist _ _ _ _ _ hb, WithTop.coe_le_coe]
      exact_mod_cast le_of_lt hlt

/-! ### LouvainHierarchy: dendrogram shape -/

theorem hierFlat_length :
    ∀ (nodes : List DNode) (nid : ℕ),
      ((hierFlat nodes nid).1).length = nodes.length - 1 := by
  intro nodes nid
  cases nodes with
  | nil => simp [hierFlat]
  | cons x rest => simp [hierFlat, foldMergeGo_length]

theorem hierComs_count
    (rec : (ℕ → ℕ → ℚ) → List DNode → ℕ → List PRecord × DNode × ℕ)
    (m : ℕ) (B : ℕ → ℕ → ℚ) (nodes : List DNode) (lab : ℕ → ℕ)
    (hrec : ∀ B2 nodes2 nid2, nodes2 ≠ [] →
      ((rec B2 nodes2 nid2).1).length + 1 = nodes2.length) :
    ∀ (coms : List ℕ) (nid : ℕ),
      ((hierComs rec m B nodes lab coms nid).1).length +
        ((hierComs rec m B nodes lab coms nid).2.1).length =
      (coms.map (fun c => (membersList m lab c).length)).sum := by
  intro coms
  induction coms with
  | nil => intro nid; simp [hierComs]
  | cons c cr ih =>
    intro nid
    simp only [hierComs]
    cases hm : membersList m lab c with
    | nil => simp [ih, List.map_cons, hm]
    | cons i0 ir =>
      have hsub := hrec (fun u v => B (getN (i0 :: ir) u) (getN (i0 :: ir) v))
        ((i0 :: ir).map (getDN nodes)) nid (by simp)
      have hrest := ih (rec (fun u v => B (getN (i0 :: ir) u) (getN (i0 :: ir) v))
        ((i0 :: ir).map (getDN nodes)) nid).2.2
      simp only [List.map_cons, List.length_map, List.length_cons] at hsub hrest
      simp only [List.length_append, List.length_cons, List.map_cons, List.sum_cons, hm]
      omega

theorem hierComs_pos
    (rec : (ℕ → ℕ → ℚ) → List DNode → ℕ → List PRecord × DNode × ℕ)
    (m : ℕ) (B : ℕ → ℕ → ℚ) (nodes : List DNode) (lab : ℕ → ℕ) :
    ∀ (coms : List ℕ) (nid : ℕ),
      1 ≤ (coms.map (fun c => (membersList m lab c).length)).sum →
      1 ≤ ((hierComs rec m B nodes lab coms nid).2.1).length := by
  intro coms
  induction coms with
  | nil => intro nid h; simp at h
  | cons c cr ih =>
    intro nid h
    simp only [hierComs]
    cases hm : membersList m lab c with
    | nil =>
      apply ih
      simp only [List.map_cons, List.sum_cons, hm] at h
      simpa using h
    | cons i0 ir => simp

theorem louvainHierGo_count (L : Oracle) (res : ℚ) :
    ∀ (fuel : ℕ) (B : ℕ → ℕ → ℚ) (nodes : List DNode) (nid : ℕ),
      ((louvainHierGo L res fuel B nodes nid).1).length + 1 = max nodes.length 1 := by
  intro fuel
  induction fuel with
  | zero =>
    intro B nodes nid
    simp only [louvainHierGo]
    rw [hierFlat_length]
    omega
  | succ f ih =>
    intro B nodes nid
    simp only [louvainHierGo]
    by_cases hstop : nodes.length ≤ 1 ∨
        countDistinct nodes.length (L nodes.length B res) ≤ 1 ∨
        countDistinct nodes.length (L nodes.length B res) = nodes.length
    · simp only [if_pos hstop]
      rw [hierFlat_length]
      omega
    · simp only [if_neg hstop]
      push_neg at hstop
      obtain ⟨hm1, hk1, hkm⟩ := hstop
      have hrec : ∀ B2 nodes2 nid2, nodes2 ≠ [] →
          ((louvainHierGo L res f B2 nodes2 nid2).1).length + 1 = nodes2.length := by
        intro B2 nodes2 nid2 hne
        have h := ih B2 nodes2 nid2
        have hl : 1 ≤ nodes2.length := by
          cases nodes2
          · simp at hne
          · simp
        omega
      have hb : ∀ i < nodes.length,
          rankIn nodes.length (L nodes.length B res) i <
            countDistinct nodes.length (L nodes.length B res) :=
        fun i hi => rankIn_lt _ _ i hi
      have hsum : ((List.range (countDistinct nodes.length (L nodes.length B res))).map
          (fun c => (membersList nodes.length
            (rankIn nodes.length (L nodes.length B res)) c).length)).sum = nodes.length := by
        rw [listSum_range]
        exact membersList_sum _ _ _ hb
      have hcc := hierComs_count (fun B2 nodes2 nid2 => louvainHierGo L res f B2 nodes2 nid2)
        nodes.length B nodes (rankIn nodes.length (L nodes.length B res)) hrec
        (List.range (countDistinct nodes.length (L nodes.length B res))) nid
      have hpos := hierComs_pos (fun B2 nodes2 nid2 => louvainHierGo L res f B2 nodes2 nid2)
        nodes.length B nodes (rankIn nodes.length (L nodes.length B res))
        (List.range (countDistinct nodes.length (L nodes.length B res))) nid
        (by omega)
      cases hroots : (hierComs (fun B2 nodes2 nid2 => louvainHierGo L res f B2 nodes2 nid2)
          nodes.length B nodes (rankIn nodes.length (L nodes.length B res))
          (List.range (countDistinct nodes.length (L nodes.length B res))) nid).2.1 with
      | nil =>
        exfalso
        rw [hroots] at hpos
        simp at hpos
      | cons x roots =>
        simp only [List.length_append, foldMergeGo_length, List.length_cons]
        rw [hroots] at hcc
        simp only [List.length_cons] at hcc
        omega

theorem louvainHierarchy_length (L : Oracle) (res : ℚ) (depth n : ℕ) (A : ℕ → ℕ → ℚ) :
    (louvainHierarchy L res depth n A).length = n - 1 := by
  unfold louvainHierarchy
  have h := louvainHierGo_count L res depth A ((List.range n).map (fun i => (i, 1))) n
  simp only [List.length_map, List.length_range] at h
  omega

/-! ### ForceAtlas2: shape preservation and errors -/

theorem faStep_shape (o : FAOptions) (n : ℕ) (A : ℕ → ℕ → ℚ)
    (st : List (List ℚ) × List (List ℚ)) :
    ShapeOK (faStep o n A st).1 n o.n_components := by
  constructor
  · simp [faStep]
  · intro r hr
    simp only [faStep, List.mem_map, List.mem_range] at hr
    obtain ⟨i, _, rfl⟩ := hr
    simp

theorem faIterate_shape (o : FAOptions) (n : ℕ) (A : ℕ → ℕ → ℚ) :
    ∀ (k : ℕ) (st : List (List ℚ) × List (List ℚ)),
      ShapeOK st.1 n o.n_components → ShapeOK (faIterate o n A k st) n o.n_components := by
  intro k
  induction k with
  | zero => intro st h; simpa [faIterate] using h
  | succ k ih =>
    intro st h
    simp only [faIterate]
    exact ih _ (faStep_shape o n A st)

theorem defaultInit_shape (seed n d : ℕ) : ShapeOK (defaultInit seed n d) n d := by
  constructor
  · simp [defaultInit]
  · intro r hr
    simp only [defaultInit, List.mem_map, List.mem_range] at hr
    obtain ⟨i, _, rfl⟩ := hr
    simp

/-- The claim C2: for every option combination accepted by the constructor
(everything except the Barnes-Hut/3D conflict, by C3), `fit_transform` on
an `n`-node graph returns a position array of shape `(n, n_components)`. -/
theorem forceAtlas_fit_transform_shape (o : FAOptions) (e : FAEngine)
    (h : forceAtlas2Mk o = Except.ok e) (n : ℕ) (A : ℕ → ℕ → ℚ) :
    ∃ p, e.fit_transform n A = Except.ok p ∧ ShapeOK p n o.n_components := by
  unfold forceAtlas2Mk at h
  by_cases hc : o.barnes_hut = true ∧ o.n_components ≠ 2
  · rw [if_pos hc] at h
    exact absurd h (by simp)
  · rw [if_neg hc] at h
    injection h with h2
    subst h2
    refine ⟨faIterate o n A o.n_iter
      (defaultInit o.seed n o.n_components, zeroPos n o.n_components), ?_, ?_⟩
    · rfl
    · exact faIterate_shape o n A _ _ (defaultInit_shape o.seed n o.n_components)

/-- Witness for C2 at a concrete constructed engine and concrete graph. -/
theorem forceAtlas_fit_transform_shape_witness :
    ∃ p, FAEngine.fit_transform ⟨⟨2, 1, false, false, false, false, false, 0⟩, Except.ok []⟩
        3 (fun _ _ => 1) = Except.ok p ∧ ShapeOK p 3 2 :=
  forceAtlas_fit_transform_shape ⟨2, 1, false, false, false, false, false, 0⟩
    ⟨⟨2, 1, false, false, false, false, false, 0⟩, Except.ok []⟩ rfl 3 (fun _ _ => 1)

/-- The claim C3: constructing the embedding engine with `n_components = 3`
and `barnes_hut = True` raises a configuration error at construction time. -/
theorem forceAtlas_mk_conflict_error (o : FAOptions)
    (h3 : o.n_components = 3) (hb : o.barnes_hut = true) :
    forceAtlas2Mk o = Except.error FAErr.configurationConflict := by
  unfold forceAtlas2Mk
  rw [if_pos ⟨hb, by omega⟩]

/-- Witness for C3 at a concrete option record. -/
theorem forceAtlas_mk_conflict_error_witness :
    (⟨3, 50, false, false, false, true, false, 0⟩ : FAOptions).n_components = 3 ∧
    (⟨3, 50, false, false, false, true, false, 0⟩ : FAOptions).barnes_hut = true ∧
    forceAtlas2Mk ⟨3, 50, false, false, false, true, false, 0⟩ =
      Except.error FAErr.configurationConflict :=
  ⟨rfl, rfl, forceAtlas_mk_conflict_error ⟨3, 50, false, false, false, true, false, 0⟩ rfl rfl⟩

/-- The claim C4: calling `fit` with a `pos_init` whose shape differs from
`(n_nodes, n_components)` raises a shape error. -/
theorem forceAtlas_fit_pos_init_shape_error (e : FAEngine) (n : ℕ) (A : ℕ → ℕ → ℚ)
    (p : List (List ℚ)) (nIter : ℕ) (h : ¬ ShapeOK p n e.opts.n_components) :
    (e.fit n A (some p) nIter).embedding_ = Except.error FAErr.inputShape := by
  simp only [FAEngine.fit, faFit]
  rw [if_neg (by simpa [ShapeOK] using h)]

/-- Witness for C4: a 10-node graph and a `pos_init` of shape (5, 7) (the
shape used by `TestEmbeddings.test_errors`). -/
theorem forceAtlas_fit_pos_init_shape_error_witness :
    ¬ ShapeOK (List.replicate 5 (List.replicate 7 (1 : ℚ))) 10 2 ∧
    ((⟨⟨2, 50, false, false, false, false, false, 0⟩, Except.ok []⟩ : FAEngine).fit 10
        (fun _ _ => 1) (some (List.replicate 5 (List.replicate 7 (1 : ℚ)))) 50).embedding_ =
      Except.error FAErr.inputShape :=
  ⟨by simp [ShapeOK], forceAtlas_fit_pos_init_shape_error
    ⟨⟨2, 50, false, false, false, false, false, 0⟩, Except.ok []⟩ 10 (fun _ _ => 1)
    (List.replicate 5 (List.replicate 7 (1 : ℚ))) 50 (by simp [ShapeOK])⟩

/-! ### Determinism of the engines (C8) -/

/-- The claim C8: hierarchy fits are idempotent (re-running `fit` on the
same input and the same engine yields the identical stored dendrogram: the
result is recomputed from the graph and the constructor options alone, and
no state carried by the instance, including the previous result, affects
it), and the embedding fit is a function of the options (with their seed),
the graph, `pos_init` and `n_iter` only — two engines with the same options
but arbitrary different stored states produce the same embedding. -/
theorem engines_deterministic :
    (∀ (e : ParisEngine) (n : ℕ) (A : ℕ → ℕ → ℚ),
      ((e.fit n A).fit n A).dendrogram_ = (e.fit n A).dendrogram_) ∧
    (∀ (e : LouvainIterEngine) (n : ℕ) (A : ℕ → ℕ → ℚ),
      ((e.fit n A).fit n A).dendrogram_ = (e.fit n A).dendrogram_) ∧
    (∀ (e : LouvainHierEngine) (n : ℕ) (A : ℕ → ℕ → ℚ),
      ((e.fit n A).fit n A).dendrogram_ = (e.fit n A).dendrogram_) ∧
    (∀ (o : FAOptions) (s1 s2 : Except FAErr (List (List ℚ))) (n : ℕ) (A : ℕ → ℕ → ℚ)
      (posInit : Option (List (List ℚ))) (nIter : ℕ),
      ((FAEngine.mk o s1).fit n A posInit nIter).embedding_ =
        ((FAEngine.mk o s2).fit n A posInit nIter).embedding_) :=
  ⟨fun _ _ _ => rfl, fun _ _ _ => rfl, fun _ _ _ => rfl, fun _ _ _ _ _ _ _ => rfl⟩

/-! ### Bipartite full dendrogram shape (C5) -/

/-- The claim C5: on a bipartite input with `n` sample and `p` feature
nodes, each hierarchy algorithm exposes a full combined dendrogram of
shape `(n + p - 1, 4)` (each record being a 4-tuple by construction). -/
theorem bipartite_full_dendrogram_shape :
    (∀ (n p : ℕ) (B : ℕ → ℕ → ℚ) (uniform reorder : Bool),
      (parisFitFull n p B uniform reorder).length = n + p - 1) ∧
    (∀ (L : Oracle) (res : ℚ) (depth n p : ℕ) (B : ℕ → ℕ → ℚ),
      (louvainIterationFull L res depth n p B).length = n + p - 1) ∧
    (∀ (L : Oracle) (res : ℚ) (depth n p : ℕ) (B : ℕ → ℕ → ℚ),
      (louvainHierarchyFull L res depth n p B).length = n + p - 1) :=
  ⟨fun n p B u r => parisFit_length (n + p) (augmentBip n p B) u r,
   fun L res d n p B => louvainIteration_length L res d (n + p) (augmentBip n p B),
   fun L res d n p B => louvainHierarchy_length L res d (n + p) (augmentBip n p B)⟩

/-! ### Dendrogram shape and distance monotonicity (C1) -/

/-- The claim C1 as amended: every hierarchy algorithm, with any options and
on every input graph, produces a dendrogram with exactly `n - 1` records
(each a 4-tuple), and the merge distances are non-decreasing for
`LouvainIteration` (with any oracle, resolution and depth) and for `Paris`
with `reorder = true` (the default).  The original claim also asserted
non-decreasing distances for `Paris(reorder=False)`, which fails (see the
counterexample). -/
theorem hierarchy_dendrogram_shape_monotone :
    (∀ (n : ℕ) (A : ℕ → ℕ → ℚ) (uniform reorder : Bool),
      (parisFit n A uniform reorder).length = n - 1) ∧
    (∀ (L : Oracle) (res : ℚ) (depth n : ℕ) (A : ℕ → ℕ → ℚ),
      (louvainIteration L res depth n A).length = n - 1) ∧
    (∀ (L : Oracle) (res : ℚ) (depth n : ℕ) (A : ℕ → ℕ → ℚ),
      (louvainHierarchy L res depth n A).length = n - 1) ∧
    (∀ (n : ℕ) (A : ℕ → ℕ → ℚ) (uniform : Bool),
      MonotoneDendrogram (parisFit n A uniform true)) ∧
    (∀ (L : Oracle) (res : ℚ) (depth n : ℕ) (A : ℕ → ℕ → ℚ),
      MonotoneDendrogram (louvainIteration L res depth n A)) :=
  ⟨parisFit_length, louvainIteration_length, louvainHierarchy_length,
   parisFit_reorder_monotone, louvainIteration_monotone⟩

set_option maxHeartbeats 2000000 in
/-- Concrete evaluation of the raw (unreordered) Paris run on `cexA`: the
merge distances are 5/12, 1/3, 1/2, 4/3 — the second merge is closer than
the first, the known non-monotonicity artifact of the raw
nearest-neighbor-chain order. -/
theorem parisFit_cexA_eval : parisFit 5 cexA false false =
    [(0, 3, ((5 / 12 : ℚ) : WithTop ℚ), 2), (1, 2, ((1 / 3 : ℚ) : WithTop ℚ), 2),
     (4, 5, ((1 / 2 : ℚ) : WithTop ℚ), 3), (6, 7, ((4 / 3 : ℚ) : WithTop ℚ), 5)] := by
  norm_num [parisFit, parisGoF, parisInit, cexA, sumR, filterP, mergeAt, mergedCluster,
    updateNbr, dedupKeys, getPC, chainWalk, nearestIdx, argminL, validPair, clusterDist,
    lookupP, List.range_succ, List.eraseIdx, WithTop.coe_le_coe, le_top, top_le_iff,
    WithTop.coe_ne_top, WithTop.coe_eq_coe]

/-- `Paris(reorder=False)` on the concrete 5-node graph `cexA` produces
merge distances that are not non-decreasing (the first merge is at
distance 5/12, the second at distance 1/3). -/
theorem paris_reorder_false_not_monotone :
    ¬ MonotoneDendrogram (parisFit 5 cexA false false) := by
  rw [parisFit_cexA_eval]
  intro h
  simp only [MonotoneDendrogram, List.pairwise_cons] at h
  have hbad := h.1 (1, 2, ((1 / 3 : ℚ) : WithTop ℚ), 2) (by simp)
  simp only [distOf] at hbad
  rw [WithTop.coe_le_coe] at hbad
  norm_num at hbad

/-! ### modularity: input-validation errors (C6, C7) and the directed
dense-input divergence (C9) -/

/-- The claim C6: an adjacency argument that is neither a recognized dense
nor sparse matrix raises `TypeError` (metrics.py lines 95-97), and a
partition argument that is neither a mapping nor an array raises
`TypeError` (lines 109-110), whatever the other arguments are.  Both are
modelled as pure error results: no state escapes the call. -/
theorem modularity_type_errors :
    (∀ (part : PartInput) (res : ℚ) (dir : Bool),
      modularity AdjInput.invalid part res dir =
        Except.error MetricError.typeErrorAdjacency) ∧
    (∀ (n : ℕ) (A : ℕ → ℕ → ℚ) (res : ℚ) (dir : Bool),
      modularity (AdjInput.csr n n A) PartInput.invalid res dir =
        Except.error MetricError.typeErrorPartition ∧
      modularity (AdjInput.spOther n n A) PartInput.invalid res dir =
        Except.error MetricError.typeErrorPartition ∧
      modularity (AdjInput.dense n n A) PartInput.invalid res dir =
        Except.error MetricError.typeErrorPartition) := by
  constructor
  · intro part res dir
    rfl
  · intro n A res dir
    refine ⟨?_, ?_, ?_⟩ <;> simp [modularity, modularityChecked]

/-- The claim C7: a non-square adjacency (of any recognized kind) makes
`modularity` raise `ValueError` (metrics.py lines 99-101) and return no
value. -/
theorem modularity_nonsquare_error (n m : ℕ) (A : ℕ → ℕ → ℚ) (part : PartInput)
    (res : ℚ) (dir : Bool) (h : n ≠ m) :
    modularity (AdjInput.csr n m A) part res dir =
      Except.error MetricError.valueErrorSquare ∧
    modularity (AdjInput.spOther n m A) part res dir =
      Except.error MetricError.valueErrorSquare ∧
    modularity (AdjInput.dense n m A) part res dir =
      Except.error MetricError.valueErrorSquare := by
  refine ⟨?_, ?_, ?_⟩ <;> simp [modularity, modularityChecked, h]

/-- Witness for C7 at the concrete shape (2, 3). -/
theorem modularity_nonsquare_error_witness :
    (2 : ℕ) ≠ 3 ∧
    modularity (AdjInput.csr 2 3 (fun _ _ => 1)) (PartInput.array (fun _ => 0)) 1 false =
      Except.error MetricError.valueErrorSquare :=
  ⟨by decide, (modularity_nonsquare_error 2 3 (fun _ _ => 1)
    (PartInput.array (fun _ => 0)) 1 false (by decide)).1⟩

/-- The claim C9: for a square dense adjacency and a valid partition,
`modularity` with `directed=True` passes the original unconverted array to
`bimodularity` (metrics.py line 113), whose `.data.sum()` access fails on
an ndarray, so the call raises; the identical call with `directed=False`
uses the converted matrix and returns a value. -/
theorem modularity_dense_directed_divergence (n : ℕ) (A : ℕ → ℕ → ℚ) (lab : ℕ → ℕ)
    (res : ℚ) :
    modularity (AdjInput.dense n n A) (PartInput.array lab) res true =
      Except.error MetricError.attributeErrorDense ∧
    modularity (AdjInput.dense n n A) (PartInput.dict lab) res true =
      Except.error MetricError.attributeErrorDense ∧
    (∃ q, modularity (AdjInput.dense n n A) (PartInput.array lab) res false = Except.ok q) ∧
    (∃ q, modularity (AdjInput.dense n n A) (PartInput.dict lab) res false = Except.ok q) := by
  refine ⟨?_, ?_, ?_, ?_⟩
  · simp [modularity, modularityChecked, bimodularityDyn]
  · simp [modularity, modularityChecked, bimodularityDyn]
  · simp only [modularity, modularityChecked, bimodularityDyn, ne_eq, not_true_eq_false,
      if_false, Bool.false_eq_true, if_neg]
    exact ⟨_, rfl⟩
  · simp only [modularity, modularityChecked, bimodularityDyn, ne_eq, not_true_eq_false,
      if_false, Bool.false_eq_true, if_neg]
    exact ⟨_, rfl⟩

/-! ### bimodularity: independent relabeling invariance (C10) -/

theorem rankIn_comp {α β : Type} [LinearOrder α] [LinearOrder β]
    [DecidableEq α] [DecidableEq β] (φ : α → β) (hφ : StrictMono φ)
    (m : ℕ) (c : ℕ → α) (i : ℕ) :
    rankIn m (fun x => φ (c x)) i = rankIn m c i := by
  unfold rankIn
  have himg : (Finset.range m).image (fun x => φ (c x)) =
      ((Finset.range m).image c).image φ := by
    rw [Finset.image_image]
    rfl
  rw [himg, Finset.filter_image, Finset.card_image_of_injective _ hφ.injective]
  congr 1
  apply Finset.filter_congr
  intro v _
  simp [hφ.lt_iff_lt]

theorem countDistinct_comp {α β : Type} [DecidableEq α] [DecidableEq β]
    (φ : α → β) (hinj : Function.Injective φ) (m : ℕ) (c : ℕ → α) :
    countDistinct m (fun x => φ (c x)) = countDistinct m c := by
  unfold countDistinct
  have himg : (Finset.range m).image (fun x => φ (c x)) =
      ((Finset.range m).image c).image φ := by
    rw [Finset.image_image]
    rfl
  rw [himg]
  exact Finset.card_image_of_injective _ hinj

/-- The claim C10: `bimodularity` relabels the sample and feature label
arrays independently to contiguous 0-based ranges (`np.unique` with
`return_inverse`, lines 50-51) before comparing them, so applying any two
order-preserving injective relabelings separately to the two label arrays
leaves the returned value unchanged — the Kronecker-delta match is between
the independently relabeled indices, not the original shared label
values. -/
theorem bimodularity_relabel_invariant (n p : ℕ) (B : ℕ → ℕ → ℚ)
    (c c2 : ℕ → ℤ) (res : ℚ) (φ ψ : ℤ → ℤ)
    (hφ : StrictMono φ) (hψ : StrictMono ψ) :
    bimodularity n p B (fun i => φ (c i)) (fun j => ψ (c2 j)) res =
      bimodularity n p B c c2 res := by
  unfold bimodularity
  simp only [rankIn_comp φ hφ n c, rankIn_comp ψ hψ p c2,
    countDistinct_comp φ hφ.injective n c, countDistinct_comp ψ hψ.injective p c2]

/-- Witness for C10: concrete biadjacency and labels, with the concrete
strictly monotone relabelings `v ↦ v + 3` and `v ↦ 2 v`. -/
theorem bimodularity_relabel_invariant_witness :
    StrictMono (fun v : ℤ => v + 3) ∧ StrictMono (fun v : ℤ => 2 * v) ∧
    bimodularity 2 2 (fun i j => if i = j then 1 else 0)
        (fun i => (fun v : ℤ => v + 3) ((i : ℤ))) (fun j => (fun v : ℤ => 2 * v) ((j : ℤ))) 1 =
      bimodularity 2 2 (fun i j => if i = j then 1 else 0)
        (fun i => ((i : ℤ))) (fun j => ((j : ℤ))) 1 :=
  ⟨fun _ _ h => add_lt_add_right h 3,
   fun _ _ h => mul_lt_mul_of_pos_left h (by norm_num),
   bimodularity_relabel_invariant 2 2 (fun i j => if i = j then 1 else 0)
     (fun i => ((i : ℤ))) (fun j => ((j : ℤ))) 1 (fun v => v + 3) (fun v => 2 * v)
     (fun _ _ h => add_lt_add_right h 3)
     (fun _ _ h => mul_lt_mul_of_pos_left h (by norm_num))⟩

theorem untop'_one_q : WithTop.untop' (0 : ℚ) (1 : WithTop ℚ) = 1 := by
  rw [← WithTop.coe_one, WithTop.untop'_coe]

theorem untop'_two_q : WithTop.untop' (0 : ℚ) (2 : WithTop ℚ) = 2 := by
  rw [← WithTop.coe_ofNat, WithTop.untop'_coe]

theorem untop'_three_q : WithTop.untop' (0 : ℚ) (3 : WithTop ℚ) = 3 := by
  rw [← WithTop.coe_ofNat, WithTop.untop'_coe]

set_option maxHeartbeats 2000000 in
/-- Concrete evaluation of the spec-modelled LouvainHierarchy with the
conforming oracle `cexOracle` on the two-clique graph `cexB` (depth 3):
the community (0, 1, 2) subdivides one level deeper than (3, 4), so the
concatenated sub-dendrograms come out at distances 1, 2, 1, 3. -/
theorem louvainHierarchy_cex_eval : louvainHierarchy cexOracle 1 3 5 cexB =
    [(0, 1, ((1 : ℚ) : WithTop ℚ), 2), (5, 2, ((2 : ℚ) : WithTop ℚ), 3),
     (3, 4, ((1 : ℚ) : WithTop ℚ), 2), (6, 7, ((3 : ℚ) : WithTop ℚ), 5)] := by
  have hc5 : countDistinct 5 (fun i => if i ≤ 2 then (0 : ℕ) else 1) = 2 := by decide
  have hc3 : countDistinct 3 (fun i => if i ≤ 1 then (0 : ℕ) else 1) = 2 := by decide
  have hc2 : countDistinct 2 (fun _ => (0 : ℕ)) = 1 := by decide
  have hm50 : membersList 5 (rankIn 5 (fun i => if i ≤ 2 then (0 : ℕ) else 1)) 0 =
      [0, 1, 2] := by decide
  have hm51 : membersList 5 (rankIn 5 (fun i => if i ≤ 2 then (0 : ℕ) else 1)) 1 =
      [3, 4] := by decide
  have hm30 : membersList 3 (rankIn 3 (fun i => if i ≤ 1 then (0 : ℕ) else 1)) 0 =
      [0, 1] := by decide
  have hm31 : membersList 3 (rankIn 3 (fun i => if i ≤ 1 then (0 : ℕ) else 1)) 1 =
      [2] := by decide
  norm_num [louvainHierarchy, louvainHierGo, cexOracle, hierComs, hierFlat, foldMergeGo,
    getDN, getN, maxFinD, distOf, hc5, hc3, hc2, hm50, hm51, hm30, hm31,
    List.range_succ, WithTop.untop'_coe, untop'_one_q, untop'_two_q, untop'_three_q,
    WithTop.coe_eq_coe, max_def]

/-- The spec-modelled LouvainHierarchy on the concrete oracle and graph
above produces merge distances that are not non-decreasing (the second
merge is at distance 2, the third at distance 1). -/
theorem louvainHier_cexB_not_monotone :
    ¬ MonotoneDendrogram (louvainHierarchy cexOracle 1 3 5 cexB) := by
  rw [louvainHierarchy_cex_eval]
  intro h
  simp only [MonotoneDendrogram, List.pairwise_cons] at h
  have hbad := h.2.1 (3, 4, ((1 : ℚ) : WithTop ℚ), 2) (by simp)
  simp only [distOf] at hbad
  rw [WithTop.coe_le_coe] at hbad
  norm_num at hbad

/-- Counterexample to C1 as stated: the non-decreasing-distance part fails
at explicit concrete inputs for two of the quantified algorithm/option
combinations — `Paris(reorder=False)` on `cexA` (distances 5/12, 1/3, 1/2,
4/3) and `LouvainHierarchy` with the conforming oracle `cexOracle` on
`cexB` (distances 1, 2, 1, 3).  Together these force both exclusions made
by the amended claim. -/
theorem hierarchy_monotonicity_counterexample :
    ¬ MonotoneDendrogram (parisFit 5 cexA false false) ∧
    ¬ MonotoneDendrogram (louvainHierarchy cexOracle 1 3 5 cexB) :=
  ⟨paris_reorder_false_not_monotone, louvainHier_cexB_not_monotone⟩
